import Mathlib

/-!
Verification of the amplitude-overlay core of `AudioSoundWavesEffect`
(`src/VideoEffect.py`): the per-frame amplitude sampling, the shape
rasterization performed in `make_frame`, the waveform preparation in
`_create_wave_overlay`, and the color parsing in `_hex_to_rgb`.

Conventions of the embedding:
* audio samples, timestamps and sample rates are rationals (`ℚ`);
* Python `int(x)` (truncation toward zero) is `pyInt`;
* Python `//` on non-negative machine ints is `Nat` division;
* a PIL RGBA image is a total pixel function on `ℤ × ℤ` together with its
  width and height; pixels outside `[0,w) × [0,h)` are never colored,
  mirroring PIL's clipping of draw operations to the canvas.
-/

namespace VideoEffect

/-- Python `int()` on a rational: truncation toward zero. -/
def pyInt (q : ℚ) : ℤ := if 0 ≤ q then ⌊q⌋ else ⌈q⌉

/-- An RGBA color, one natural number per channel. -/
abbrev RGBA := ℕ × ℕ × ℕ × ℕ

/-- An RGB color. -/
abbrev RGB := ℕ × ℕ × ℕ

/-- Value of one hexadecimal digit, if the character is one. -/
def hexDigitVal (c : Char) : Option ℕ :=
  if '0' ≤ c ∧ c ≤ '9' then some (c.toNat - '0'.toNat)
  else if 'a' ≤ c ∧ c ≤ 'f' then some (c.toNat - 'a'.toNat + 10)
  else if 'A' ≤ c ∧ c ≤ 'F' then some (c.toNat - 'A'.toNat + 10)
  else none

/-- Python `int(s, 16)` on a two-character slice made of plain hex digits,
as used by `_hex_to_rgb` on `hex_color[0:2]`, `[2:4]`, `[4:6]`. -/
def parseHexByte (c1 c2 : Char) : Option ℕ :=
  match hexDigitVal c1, hexDigitVal c2 with
  | some h1, some h2 => some (h1 * 16 + h2)
  | _, _ => none

/-- Embeds `_hex_to_rgb` (src/VideoEffect.py lines 301-315): strip leading `#`
characters, parse `RRGGBB` if exactly six characters remain and all are hex
digits, otherwise return the default red `(255, 0, 0, 255)`. -/
def hex_to_rgb (s : String) : RGBA :=
  match s.toList.dropWhile (fun c => c = '#') with
  | [c1, c2, c3, c4, c5, c6] =>
    match parseHexByte c1 c2, parseHexByte c3 c4, parseHexByte c5 c6 with
    | some r, some g, some b => (r, g, b, 255)
    | _, _, _ => (255, 0, 0, 255)
  | _ => (255, 0, 0, 255)

/-- The anchor vertical coordinate from `wave_position`
(src/VideoEffect.py lines 239-246); any unrecognized value falls back to
`h // 2` (center). -/
def wave_y_mid (wave_position : String) (h : ℕ) : ℕ :=
  if wave_position = "center" then h / 2
  else if wave_position = "top_third" then h / 3
  else if wave_position = "bottom_third" then (h * 2) / 3
  else h / 2

/-- Embeds `total_samples = int(sample_rate * duration)` (line 250); the callers
only pass non-negative rates and durations, so the value is the floor, a
natural number. -/
def total_samples (sample_rate duration : ℚ) : ℕ := (pyInt (sample_rate * duration)).toNat

/-- The waveform preparation of `_create_wave_overlay` (lines 251-256):
zero-pad the waveform up to `total` samples, or truncate it down to
`total` samples. -/
def prepare_waveform (waveform : List ℚ) (total : ℕ) : List ℚ :=
  if waveform.length < total then
    waveform ++ List.replicate (total - waveform.length) 0
  else if total < waveform.length then
    waveform.take total
  else waveform

/-- The amplitude lookup at the top of `make_frame` (lines 260-266): the
spec's `sample_at`. `index = int(t * sample_rate)`; an out-of-range index
yields amplitude `0`, otherwise the raw waveform sample is returned. -/
def sample_at (waveform : List ℚ) (sample_rate t : ℚ) : ℚ :=
  if pyInt (t * sample_rate) < 0 ∨ (waveform.length : ℤ) ≤ pyInt (t * sample_rate) then 0
  else waveform.getD (pyInt (t * sample_rate)).toNat 0

/-- The spec's sampler, for comparison with `sample_at`: index
`round(t * sample_rate)` clamped to `[0, sample_count - 1]`, then the
sample at that index. -/
def sample_at_spec (waveform : List ℚ) (sample_rate t : ℚ) : ℚ :=
  let index : ℤ := max 0 (min (round (t * sample_rate)) ((waveform.length : ℤ) - 1))
  waveform.getD index.toNat 0

/-- The style arguments of `_create_wave_overlay`. -/
structure WaveStyle where
  wave_type : String
  wave_position : String
  wave_width : ℕ
  wave_height : ℕ
  wave_color : String

/-- The figure that one `make_frame` call draws on the blank RGBA canvas. -/
inductive Figure where
  | none
  | rect (x1 y1 x2 y2 : ℤ)
  | line (x1 y1 x2 y2 : ℤ) (width : ℕ)
deriving DecidableEq

/-- The figure drawn by `make_frame` (lines 272-293) for a frame of size
`w × h` at amplitude `amp`:
* `wave_type = "columns"`: `draw.rectangle` with corners
  `(w//2 - wave_width//2, int(mid - |amp|*wave_height/2))` and
  `(w//2 + wave_width//2, int(mid + |amp|*wave_height/2))`;
* `wave_type = "wave"`: `draw.line` from `(0, mid)` to
  `(w, mid + int(amp*wave_height))` of thickness `wave_width`;
* anything else: nothing is drawn. -/
def drawnFigure (style : WaveStyle) (w h : ℕ) (amp : ℚ) : Figure :=
  let mid := wave_y_mid style.wave_position h
  if style.wave_type = "columns" then
    let col_height : ℚ := |amp| * style.wave_height
    .rect ((w / 2 : ℕ) - (style.wave_width / 2 : ℕ))
          (pyInt ((mid : ℚ) - col_height / 2))
          ((w / 2 : ℕ) + (style.wave_width / 2 : ℕ))
          (pyInt ((mid : ℚ) + col_height / 2))
  else if style.wave_type = "wave" then
    let amplitude := pyInt (amp * style.wave_height)
    .line 0 (mid : ℤ) (w : ℤ) ((mid : ℤ) + amplitude) style.wave_width
  else .none

/-- Clamp a segment parameter to `[0, 1]`. -/
def segClamp (q : ℚ) : ℚ := max 0 (min q 1)

/-- Membership of pixel `(x, y)` in a stroked segment from `(ax, ay)` to
`(bx, by2)` of half-thickness `halfw`: squared distance from the point to
the segment is at most `halfw²`. Models PIL's thick `draw.line`. -/
def onSegment (ax ay bx by2 halfw x y : ℚ) : Bool :=
  let dx := bx - ax
  let dy := by2 - ay
  let len2 := dx * dx + dy * dy
  let s := segClamp (((x - ax) * dx + (y - ay) * dy) / len2)
  let px := ax + s * dx
  let py := ay + s * dy
  decide ((x - px) ^ 2 + (y - py) ^ 2 ≤ halfw ^ 2)

/-- Whether pixel `(x, y)` belongs to a figure's footprint. PIL's
`draw.rectangle` fills both corners inclusively. -/
def inFigure (f : Figure) (x y : ℤ) : Bool :=
  match f with
  | .none => false
  | .rect x1 y1 x2 y2 => decide (x1 ≤ x ∧ x ≤ x2 ∧ y1 ≤ y ∧ y ≤ y2)
  | .line x1 y1 x2 y2 lw =>
      onSegment (x1 : ℚ) (y1 : ℚ) (x2 : ℚ) (y2 : ℚ) ((lw : ℚ) / 2) (x : ℚ) (y : ℚ)

/-- An RGBA frame: a `w × h` canvas with a total pixel function; draw
operations never color a pixel outside `[0,w) × [0,h)`. -/
structure RGBAFrame where
  width : ℕ
  height : ℕ
  pix : ℤ → ℤ → RGBA

/-- An RGBA image has four channels. -/
def RGBAFrame.channels (_ : RGBAFrame) : ℕ := 4

/-- An RGB frame (a decoded base video frame). -/
structure RGBFrame where
  width : ℕ
  height : ℕ
  pix : ℤ → ℤ → RGB

/-- An RGB image has three channels. -/
def RGBFrame.channels (_ : RGBFrame) : ℕ := 3

/-- Embeds `Image.new("RGBA", (w, h), (255, 255, 255, 0))` (line 269): a fully
transparent white canvas. -/
def blankFrame (w h : ℕ) : RGBAFrame :=
  ⟨w, h, fun _ _ => (255, 255, 255, 0)⟩

/-- Embeds `make_frame(t)` (lines 259-296): sample the amplitude, draw the figure
selected by `wave_type` in the parsed wave color on a transparent canvas,
clipped to the canvas. -/
def make_frame (w h : ℕ) (style : WaveStyle) (waveform : List ℚ) (sample_rate : ℚ)
    (t : ℚ) : RGBAFrame :=
  let amp := sample_at waveform sample_rate t
  let fig := drawnFigure style w h amp
  ⟨w, h, fun x y =>
    if decide (0 ≤ x ∧ x < w ∧ 0 ≤ y ∧ y < h) && inFigure fig x y then
      hex_to_rgb style.wave_color
    else (255, 255, 255, 0)⟩

/-- Alpha-over compositing of an RGBA overlay pixel onto an RGB base pixel
(the semantics of `CompositeVideoClip([base_clip, wave_clip])`, line 185):
a fully transparent overlay pixel leaves the base pixel unchanged. -/
def alphaOver (base : RGB) (over : RGBA) : RGB :=
  let (r, g, b, a) := over
  let (br, bg, bb) := base
  ((r * a + br * (255 - a)) / 255,
   (g * a + bg * (255 - a)) / 255,
   (b * a + bb * (255 - a)) / 255)

/-- Composite an RGBA overlay frame over an RGB base frame; the result
keeps the base frame's dimensions and channel layout. -/
def compositeFrame (base : RGBFrame) (over : RGBAFrame) : RGBFrame :=
  ⟨base.width, base.height, fun x y => alphaOver (base.pix x y) (over.pix x y)⟩

/-- The effective per-frame render: generate the overlay frame with
`make_frame` and composite it over the base video frame. -/
def render (base : RGBFrame) (style : WaveStyle) (waveform : List ℚ) (sample_rate : ℚ)
    (t : ℚ) : RGBFrame :=
  compositeFrame base (make_frame base.width base.height style waveform sample_rate t)

/-- Modelled from the spec: the spec's `InvalidAudioError` (spec.md §7).
The source code of `_create_wave_overlay` defines no such error and has no
failure path; the type exists here so that the spec's failure claim can be
stated against the embedded function. -/
inductive VideoEffectError where
  | invalidAudio
deriving DecidableEq

/-- The overlay clip returned by `_create_wave_overlay`: a duration, a
frame rate, and a frame function of time. -/
structure OverlayClip where
  duration : ℚ
  fps : ℕ
  frame : ℚ → RGBAFrame

/-- Embeds `_create_wave_overlay` (lines 216-299): prepare (pad or truncate) the
waveform to `int(sample_rate * duration)` samples and return the clip
whose frame at time `t` is `make_frame(t)`. The source never raises: every
input, the empty waveform included, yields `Except.ok`. -/
def create_wave_overlay (w h : ℕ) (style : WaveStyle) (waveform : List ℚ)
    (sample_rate duration : ℚ) : Except VideoEffectError OverlayClip :=
  let total := total_samples sample_rate duration
  let wf := prepare_waveform waveform total
  .ok ⟨duration, 24, fun t => make_frame w h style wf sample_rate t⟩

/-- The `y`-coordinate of the point at parameter `p ∈ [0,1]` of a figure's
stroked segment (for `Figure.line`, the ideal polyline geometry the code
passes to `draw.line`); `0` for other figures. -/
def segmentYAt (f : Figure) (p : ℚ) : ℚ :=
  match f with
  | .line _ y1 _ y2 _ => (y1 : ℚ) + p * ((y2 : ℚ) - (y1 : ℚ))
  | _ => 0

/-- Modelled from the spec (spec.md §4.2, wave shape): the vertical offset
at horizontal progress `p` is `amp_px * sin(2π·p)` with
`amp_px = round(style.height * amplitude)`, and the polyline point sits at
`anchor_y - offset`. -/
noncomputable def specWaveY (anchor_y wave_height : ℕ) (amp : ℚ) (p : ℝ) : ℝ :=
  (anchor_y : ℝ) - ((round ((wave_height : ℚ) * amp) : ℤ) : ℝ) * Real.sin (2 * Real.pi * p)

/-! ### Helper lemmas -/

theorem pyInt_of_nonneg {q : ℚ} (h : 0 ≤ q) : pyInt q = ⌊q⌋ := if_pos h

theorem pyInt_natCast (n : ℕ) : pyInt (n : ℚ) = n := by
  rw [pyInt_of_nonneg (by positivity), Int.floor_natCast]

theorem pyInt_mono {p q : ℚ} (h : p ≤ q) : pyInt p ≤ pyInt q := by
  unfold pyInt
  by_cases hp : 0 ≤ p
  · rw [if_pos hp, if_pos (le_trans hp h)]
    exact Int.floor_le_floor h
  · rw [if_neg hp]
    by_cases hq : 0 ≤ q
    · rw [if_pos hq]
      refine le_trans (Int.ceil_le.mpr ?_) (Int.floor_nonneg.mpr hq)
      exact_mod_cast le_of_lt (lt_of_not_le hp)
    · rw [if_neg hq]
      exact Int.ceil_le_ceil h

theorem prepare_waveform_length (wf : List ℚ) (n : ℕ) :
    (prepare_waveform wf n).length = n := by
  unfold prepare_waveform
  split
  · rename_i h
    simp only [List.length_append, List.length_replicate]
    omega
  · split
    · rename_i h h'
      simp only [List.length_take]
      omega
    · rename_i h h'
      omega

theorem sample_at_out_of_range (wf : List ℚ) (rate t : ℚ)
    (h : (wf.length : ℤ) ≤ pyInt (t * rate)) : sample_at wf rate t = 0 := by
  unfold sample_at
  rw [if_pos (Or.inr h)]

/-! ### C1: amplitude sampling -/

/-- C1, counterexample. The claim says the amplitude at time `t` is the
waveform sample at index `round(t * sample_rate)` clamped to
`[0, sample_count - 1]`, and that beyond the track duration it equals the
amplitude at the last valid sample. On the two-sample track `[3/10, 7/10]`
at 1 Hz: the code samples `3/10` at `t = 3/5` (truncated index `0`) while
the claimed formula gives `7/10` (rounded index `1`); and at `t = 3`,
beyond the duration `2`, the code yields `0`, not the last sample `7/10`. -/
theorem C1_counterexample :
    sample_at [3/10, 7/10] 1 (3/5) = 3/10 ∧
    sample_at_spec [3/10, 7/10] 1 (3/5) = 7/10 ∧
    (3/10 : ℚ) ≠ 7/10 ∧
    prepare_waveform [3/10, 7/10] (total_samples 1 2) = [3/10, 7/10] ∧
    sample_at [3/10, 7/10] 1 3 = 0 ∧
    (0 : ℚ) ≠ [3/10, 7/10].getD 1 0 := by
  refine ⟨?_, ?_, by norm_num, ?_, ?_, by norm_num⟩
  · norm_num [sample_at, pyInt]
  · norm_num [sample_at_spec, round_eq]
  · norm_num [prepare_waveform, total_samples, pyInt]
  · norm_num [sample_at, pyInt]

/-- C1, amended: the sample index is `int(t * sample_rate)` (truncation,
not rounding) and an out-of-range index yields amplitude `0` rather than a
clamped lookup; since `_create_wave_overlay` pads or truncates the
waveform to exactly `int(sample_rate * duration)` samples, every timestamp
`t ≥ duration` samples amplitude `0`, which coincides with the amplitude
sampled at `t = duration`; sampling never fails for out-of-range
timestamps. -/
theorem C1_amended (wf : List ℚ) (rate duration t : ℚ)
    (hrate : 0 ≤ rate) (hdur : 0 ≤ duration) (ht : duration ≤ t) :
    sample_at (prepare_waveform wf (total_samples rate duration)) rate t = 0 ∧
    sample_at (prepare_waveform wf (total_samples rate duration)) rate duration = 0 := by
  have key : ∀ s : ℚ, duration ≤ s →
      sample_at (prepare_waveform wf (total_samples rate duration)) rate s = 0 := by
    intro s hs
    apply sample_at_out_of_range
    rw [prepare_waveform_length]
    have h2 : (0:ℚ) ≤ rate * duration := mul_nonneg hrate hdur
    have h3 : (total_samples rate duration : ℤ) = pyInt (rate * duration) := by
      unfold total_samples
      rw [Int.toNat_of_nonneg]
      rw [pyInt_of_nonneg h2]
      exact Int.floor_nonneg.mpr h2
    rw [h3, mul_comm rate duration]
    exact pyInt_mono (mul_le_mul_of_nonneg_right hs hrate)
  exact ⟨key t ht, key duration le_rfl⟩

/-- C1, witness for the amended theorem. -/
theorem C1_amended_witness :
    sample_at (prepare_waveform [3/10, 7/10] (total_samples 1 2)) 1 3 = 0 ∧
    sample_at (prepare_waveform [3/10, 7/10] (total_samples 1 2)) 1 2 = 0 :=
  C1_amended [3/10, 7/10] 1 2 3 (by norm_num) (by norm_num) (by norm_num)

/-! ### C2: the bar ("columns") shape -/

/-- C2, counterexample. The claim says the bar extends from
`anchor_y - amp_px` to `anchor_y + amp_px` with
`amp_px = round(style.height * amplitude)`, so amplitude `1/2` and height
`100` give a half-height of `50` about the anchor. On a `200 × 200` frame
(anchor `100`) the code draws the rectangle from `y = 75` to `y = 125`
(half-height `25 = int(|amp| * height / 2)`), not from `50` to `150`. -/
theorem C2_counterexample :
    drawnFigure ⟨"columns", "center", 3, 100, "#FF0000"⟩ 200 200 (1/2) =
      Figure.rect 99 75 101 125 ∧
    round ((100 : ℚ) * (1/2)) = 50 ∧
    wave_y_mid "center" 200 = 100 ∧
    Figure.rect 99 75 101 125 ≠ Figure.rect 99 (100 - 50) 101 (100 + 50) := by
  refine ⟨?_, by norm_num [round_eq], by norm_num [wave_y_mid], by decide⟩
  have h : |(1:ℚ)/2| = 1/2 := by norm_num
  norm_num [drawnFigure, wave_y_mid, pyInt, h]

/-- C2, amended: the bar is a filled rectangle whose vertical extent runs
from `int(anchor_y - |amplitude| * height / 2)` to
`int(anchor_y + |amplitude| * height / 2)` — a total extent of about
`|amplitude| * height`, half of it above and half below the anchor (so
amplitude `1/2` with height `100` gives half-height `25`, not `50`) — and
whose horizontal extent is the thin window `w/2 ± wave_width/2`, not the
full configured width; the rectangle always straddles the anchor row. -/
theorem C2_amended (style : WaveStyle) (w h : ℕ) (amp : ℚ)
    (hshape : style.wave_type = "columns") :
    drawnFigure style w h amp =
      Figure.rect ((w / 2 : ℕ) - (style.wave_width / 2 : ℕ))
        (pyInt ((wave_y_mid style.wave_position h : ℚ) - |amp| * style.wave_height / 2))
        ((w / 2 : ℕ) + (style.wave_width / 2 : ℕ))
        (pyInt ((wave_y_mid style.wave_position h : ℚ) + |amp| * style.wave_height / 2)) ∧
    pyInt ((wave_y_mid style.wave_position h : ℚ) - |amp| * style.wave_height / 2)
      ≤ (wave_y_mid style.wave_position h : ℤ) ∧
    (wave_y_mid style.wave_position h : ℤ)
      ≤ pyInt ((wave_y_mid style.wave_position h : ℚ) + |amp| * style.wave_height / 2) := by
  have h0 : (0:ℚ) ≤ |amp| * style.wave_height / 2 := by positivity
  refine ⟨by simp [drawnFigure, hshape], ?_, ?_⟩
  · calc pyInt ((wave_y_mid style.wave_position h : ℚ) - |amp| * style.wave_height / 2)
        ≤ pyInt ((wave_y_mid style.wave_position h : ℚ)) := pyInt_mono (by linarith)
      _ = (wave_y_mid style.wave_position h : ℤ) := pyInt_natCast _
  · calc (wave_y_mid style.wave_position h : ℤ)
        = pyInt ((wave_y_mid style.wave_position h : ℚ)) := (pyInt_natCast _).symm
      _ ≤ pyInt ((wave_y_mid style.wave_position h : ℚ) + |amp| * style.wave_height / 2) :=
        pyInt_mono (by linarith)

/-- C2, witness for the amended theorem. -/
theorem C2_amended_witness :
    drawnFigure ⟨"columns", "center", 3, 100, "#FF0000"⟩ 200 200 (1/2) =
      Figure.rect ((200 / 2 : ℕ) - (3 / 2 : ℕ))
        (pyInt ((wave_y_mid "center" 200 : ℚ) - |(1:ℚ)/2| * (100:ℕ) / 2))
        ((200 / 2 : ℕ) + (3 / 2 : ℕ))
        (pyInt ((wave_y_mid "center" 200 : ℚ) + |(1:ℚ)/2| * (100:ℕ) / 2)) ∧
    pyInt ((wave_y_mid "center" 200 : ℚ) - |(1:ℚ)/2| * (100:ℕ) / 2)
      ≤ (wave_y_mid "center" 200 : ℤ) ∧
    (wave_y_mid "center" 200 : ℤ)
      ≤ pyInt ((wave_y_mid "center" 200 : ℚ) + |(1:ℚ)/2| * (100:ℕ) / 2) :=
  C2_amended ⟨"columns", "center", 3, 100, "#FF0000"⟩ 200 200 (1/2) rfl

/-! ### C3: the "wave" shape -/

/-- C3, counterexample. The claim says the wave shape's point at
horizontal progress `p` has vertical offset `amp_px * sin(2π·p)` from the
anchor. The code instead passes `draw.line` the single straight segment
from `(0, anchor_y)` to `(w, anchor_y + int(amp * height))`: on a
`100 × 200` frame at amplitude `1` with height `100`, the segment's point
at progress `1/2` is at `y = 150`, while the claimed sinusoid is back at
the anchor `y = 100` there (since `sin(π) = 0`). -/
theorem C3_counterexample :
    drawnFigure ⟨"wave", "center", 3, 100, "#FF0000"⟩ 100 200 1 =
      Figure.line 0 100 100 200 3 ∧
    segmentYAt (Figure.line 0 100 100 200 3) (1/2) = 150 ∧
    specWaveY 100 100 1 (1/2) = 100 ∧
    ((150 : ℚ) : ℝ) ≠ specWaveY 100 100 1 (1/2) := by
  have hne : ("wave" : String) ≠ "columns" := by decide
  have hspec : specWaveY 100 100 1 (1/2) = 100 := by
    unfold specWaveY
    rw [show (2 * Real.pi * (1/2 : ℝ)) = Real.pi by ring, Real.sin_pi]
    norm_num
  refine ⟨?_, ?_, hspec, ?_⟩
  · norm_num [drawnFigure, wave_y_mid, pyInt, hne]
  · norm_num [segmentYAt]
  · rw [hspec]; norm_num

/-- C3, amended: the wave shape draws one straight segment from
`(0, anchor_y)` to `(w, anchor_y + int(amplitude * height))`; the point at
horizontal progress `p` has the linear vertical offset
`p * int(amplitude * height)` below the anchor, not a sinusoidal one — the
figure is a sloped straight line, with no sine period at any amplitude;
amplitude scales only the endpoint's vertical offset, and at amplitude `0`
the segment is the flat horizontal line at `anchor_y`. -/
theorem C3_amended (style : WaveStyle) (w h : ℕ) (amp p : ℚ)
    (hshape : style.wave_type = "wave") :
    drawnFigure style w h amp =
      Figure.line 0 (wave_y_mid style.wave_position h) w
        ((wave_y_mid style.wave_position h : ℤ) + pyInt (amp * style.wave_height))
        style.wave_width ∧
    segmentYAt (drawnFigure style w h amp) p =
      (wave_y_mid style.wave_position h : ℚ) + p * (pyInt (amp * style.wave_height) : ℚ) ∧
    (amp = 0 → segmentYAt (drawnFigure style w h amp) p =
      (wave_y_mid style.wave_position h : ℚ)) := by
  have hne : ("wave" : String) ≠ "columns" := by decide
  have hfig : drawnFigure style w h amp =
      Figure.line 0 (wave_y_mid style.wave_position h) w
        ((wave_y_mid style.wave_position h : ℤ) + pyInt (amp * style.wave_height))
        style.wave_width := by
    rw [drawnFigure, hshape]
    simp [hne]
  have hY : segmentYAt (drawnFigure style w h amp) p =
      (wave_y_mid style.wave_position h : ℚ) + p * (pyInt (amp * style.wave_height) : ℚ) := by
    rw [hfig]
    unfold segmentYAt
    push_cast
    ring
  refine ⟨hfig, hY, fun hamp => ?_⟩
  rw [hY, hamp]
  have : pyInt (0 * (style.wave_height : ℚ)) = 0 := by
    rw [zero_mul, pyInt_of_nonneg le_rfl, Int.floor_zero]
  rw [this]
  push_cast
  ring

/-- C3, witness for the amended theorem. -/
theorem C3_amended_witness :
    drawnFigure ⟨"wave", "center", 3, 100, "#FF0000"⟩ 100 200 0 =
      Figure.line 0 (wave_y_mid "center" 200) 100
        ((wave_y_mid "center" 200 : ℤ) + pyInt ((0:ℚ) * (100:ℕ))) 3 ∧
    segmentYAt (drawnFigure ⟨"wave", "center", 3, 100, "#FF0000"⟩ 100 200 0) (1/2) =
      (wave_y_mid "center" 200 : ℚ) + (1/2) * (pyInt ((0:ℚ) * (100:ℕ)) : ℚ) ∧
    ((0:ℚ) = 0 → segmentYAt (drawnFigure ⟨"wave", "center", 3, 100, "#FF0000"⟩ 100 200 0) (1/2) =
      (wave_y_mid "center" 200 : ℚ)) :=
  C3_amended ⟨"wave", "center", 3, 100, "#FF0000"⟩ 100 200 0 (1/2) rfl

/-! ### C4: amplitude bounds -/

/-- C4, counterexample. The claim says the Sampler normalizes raw samples
by the maximum representable magnitude of their domain and delivers values
in `[0, 1]` (or `[-1, 1]`). The code performs no normalization at all: a
waveform whose sample is `2` is delivered to the renderer as amplitude `2`,
outside `[-1, 1]`, and a 16-bit-style sample `16383` is delivered as
`16383`, not `16383 / 32767`. -/
theorem C4_counterexample :
    sample_at [2] 1 0 = 2 ∧
    ¬(|sample_at [2] 1 0| ≤ 1) ∧
    sample_at [16383] 1 0 = 16383 ∧
    (16383 : ℚ) ≠ 16383 / 32767 := by
  have h2 : sample_at [2] 1 0 = 2 := by norm_num [sample_at, pyInt]
  have h16 : sample_at [16383] 1 0 = 16383 := by norm_num [sample_at, pyInt]
  exact ⟨h2, by rw [h2]; norm_num, h16, by norm_num⟩

/-- C4, amended: the sampler applies no normalization or clamping of its
own — it returns the raw waveform sample (or `0` out of range) — so the
amplitude consumed by the renderer is bounded by `[-1, 1]` exactly when
every sample of the input waveform already is. -/
theorem C4_amended (wf : List ℚ) (rate t : ℚ) (hbound : ∀ s ∈ wf, |s| ≤ 1) :
    |sample_at wf rate t| ≤ 1 := by
  unfold sample_at
  split
  · simp
  · rename_i hcond
    push_neg at hcond
    obtain ⟨h1, h2⟩ := hcond
    have hlt : (pyInt (t * rate)).toNat < wf.length := by omega
    rw [List.getD_eq_getElem wf 0 hlt]
    exact hbound _ (List.getElem_mem hlt)

/-- C4, witness for the amended theorem. -/
theorem C4_amended_witness : |sample_at [1/2, -1] 1 0| ≤ 1 :=
  C4_amended [1/2, -1] 1 0 (by
    intro s hs
    simp only [List.mem_cons, List.not_mem_nil, or_false] at hs
    rcases hs with h | h
    · rw [h, abs_le]; constructor <;> norm_num
    · rw [h, abs_le]; constructor <;> norm_num)

/-! ### C5: empty audio track -/

/-- Preparing the empty waveform yields all-zero samples. -/
theorem prepare_waveform_nil (n : ℕ) : prepare_waveform [] n = List.replicate n 0 := by
  unfold prepare_waveform
  split
  · simp
  · split
    · rename_i h h'
      simp at h'
    · rename_i h h'
      have hn : n = 0 := by simp at h; omega
      subst hn
      rfl

/-- Sampling an all-zero waveform yields `0` at every timestamp. -/
theorem sample_at_replicate_zero (n : ℕ) (rate t : ℚ) :
    sample_at (List.replicate n (0:ℚ)) rate t = 0 := by
  unfold sample_at
  split
  · rfl
  · rename_i hcond
    push_neg at hcond
    have hlt : (pyInt (t * rate)).toNat < (List.replicate n (0:ℚ)).length := by
      simp only [List.length_replicate] at hcond ⊢
      omega
    rw [List.getD_eq_getElem _ _ hlt]
    exact List.eq_of_mem_replicate (List.getElem_mem hlt)

/-- C5, counterexample. The claim says a zero-length audio track makes the
run fail with an `InvalidAudioError` and never proceed with a substitute
amplitude. The code has no such error: `_create_wave_overlay` zero-pads the
empty waveform to `int(sample_rate * duration)` zero samples and returns
its overlay clip normally, and every frame then samples the substitute
amplitude `0`. -/
theorem C5_counterexample :
    create_wave_overlay 4 4 ⟨"columns", "center", 3, 100, "#FF0000"⟩ [] 2 1 ≠
      Except.error VideoEffectError.invalidAudio ∧
    prepare_waveform [] (total_samples 2 1) = [0, 0] ∧
    sample_at [0, 0] 2 (1/4) = 0 := by
  refine ⟨?_, ?_, ?_⟩
  · intro hcontra
    simp only [create_wave_overlay] at hcontra
    exact Except.noConfusion hcontra
  · have h : total_samples 2 1 = 2 := by
      unfold total_samples
      rw [pyInt_of_nonneg (by norm_num)]
      rw [show ⌊(2:ℚ) * 1⌋ = 2 by norm_num]
      decide
    rw [h, prepare_waveform_nil]
    rfl
  · norm_num [sample_at, pyInt]

/-- C5, amended: a zero-length audio track is not rejected —
`_create_wave_overlay` has no failure path at all: the empty waveform is
zero-padded to `int(sample_rate * duration)` zero samples, the overlay
clip is returned normally, and every frame proceeds with the substitute
amplitude `0`. -/
theorem C5_amended (w h : ℕ) (style : WaveStyle) (rate duration t : ℚ) :
    prepare_waveform [] (total_samples rate duration) =
      List.replicate (total_samples rate duration) 0 ∧
    create_wave_overlay w h style [] rate duration ≠
      Except.error VideoEffectError.invalidAudio ∧
    sample_at (List.replicate (total_samples rate duration) (0:ℚ)) rate t = 0 := by
  refine ⟨prepare_waveform_nil _, ?_, sample_at_replicate_zero _ _ _⟩
  intro hcontra
  simp only [create_wave_overlay] at hcontra
  exact Except.noConfusion hcontra

/-! ### C6: width clamping and frame bounds -/

/-- C6, counterexample. The claim says `style.width` is clamped to the
frame width and drawing stays inside the centered window
`[start_x, start_x + width)` with `start_x = (frame_width - width) / 2`.
On a `4 × 4` frame with `wave_width = 10` the clamped window would be
`[0, 4)`, but the code performs no clamping: the rectangle it requests
spans `x ∈ [-3, 7]`, extending beyond the claimed window on both sides. -/
theorem C6_counterexample :
    drawnFigure ⟨"columns", "center", 10, 100, "#FF0000"⟩ 4 4 (1/2) =
      Figure.rect (-3) (-23) 7 27 ∧
    ((4 - min 10 4) / 2 : ℕ) = 0 ∧
    ¬((0:ℤ) ≤ -3) ∧
    ¬((7:ℤ) < 0 + 4) := by
  refine ⟨?_, by norm_num, by norm_num, by norm_num⟩
  have habs : |(1:ℚ)/2| = 1/2 := by norm_num
  norm_num [drawnFigure, wave_y_mid, pyInt, habs]
  rw [show ((-23):ℚ) = ((-23:ℤ):ℚ) by norm_num, Int.ceil_intCast]

/-- C6, amended: the renderer never clamps `wave_width` — the requested
bar spans `x ∈ [w/2 - wave_width/2, w/2 + wave_width/2]` and may extend
beyond the frame — but draw operations are clipped to the canvas, so no
pixel outside the frame bounds is ever colored: every out-of-bounds pixel
of the overlay frame stays fully transparent. -/
theorem C6_amended (w h : ℕ) (style : WaveStyle) (wf : List ℚ) (rate t : ℚ) (x y : ℤ)
    (hout : x < 0 ∨ (w:ℤ) ≤ x ∨ y < 0 ∨ (h:ℤ) ≤ y) :
    (make_frame w h style wf rate t).pix x y = (255, 255, 255, 0) := by
  have hguard : decide (0 ≤ x ∧ x < (w:ℤ) ∧ 0 ≤ y ∧ y < (h:ℤ)) = false := by
    simp only [decide_eq_false_iff_not]
    rintro ⟨a1, a2, a3, a4⟩
    rcases hout with h | h | h | h <;> omega
  simp only [make_frame, hguard, Bool.false_and, Bool.false_eq_true, if_false]

/-- C6, witness for the amended theorem. -/
theorem C6_amended_witness :
    (make_frame 4 4 ⟨"columns", "center", 10, 100, "#FF0000"⟩ [1/2] 1 0).pix (-1) 2 =
      (255, 255, 255, 0) :=
  C6_amended 4 4 ⟨"columns", "center", 10, 100, "#FF0000"⟩ [1/2] 1 0 (-1) 2
    (Or.inl (by norm_num))

/-! ### C7: dimension preservation and locality of the render -/

/-- Compositing a fully transparent overlay pixel leaves the base pixel
unchanged. -/
theorem alphaOver_transparent (c : RGB) : alphaOver c (255, 255, 255, 0) = c := by
  obtain ⟨r, g, b⟩ := c
  simp only [alphaOver, Prod.mk.injEq]
  refine ⟨?_, ?_, ?_⟩ <;> omega

/-- C7: the rendered frame has the same width, height and channel count as
the input frame, and every pixel outside the drawn figure's footprint is
unchanged — the overlay is fully transparent there, so compositing returns
the base pixel; the frame is never resized. -/
theorem C7_render_preserves (base : RGBFrame) (style : WaveStyle) (wf : List ℚ)
    (rate t : ℚ) (x y : ℤ)
    (hfig : inFigure (drawnFigure style base.width base.height (sample_at wf rate t)) x y
      = false) :
    (render base style wf rate t).width = base.width ∧
    (render base style wf rate t).height = base.height ∧
    (render base style wf rate t).channels = base.channels ∧
    (render base style wf rate t).pix x y = base.pix x y := by
  refine ⟨rfl, rfl, rfl, ?_⟩
  show alphaOver (base.pix x y) ((make_frame base.width base.height style wf rate t).pix x y)
    = base.pix x y
  have hover : (make_frame base.width base.height style wf rate t).pix x y
      = (255, 255, 255, 0) := by
    simp only [make_frame, hfig, Bool.and_false, Bool.false_eq_true, if_false]
  rw [hover, alphaOver_transparent]

/-- C7, witness. -/
theorem C7_witness :
    (render ⟨10, 10, fun _ _ => (7, 8, 9)⟩ ⟨"columns", "center", 3, 4, "#00FF00"⟩ [] 1 0).width
      = 10 ∧
    (render ⟨10, 10, fun _ _ => (7, 8, 9)⟩ ⟨"columns", "center", 3, 4, "#00FF00"⟩ [] 1 0).height
      = 10 ∧
    (render ⟨10, 10, fun _ _ => (7, 8, 9)⟩ ⟨"columns", "center", 3, 4, "#00FF00"⟩ [] 1 0).channels
      = 3 ∧
    (render ⟨10, 10, fun _ _ => (7, 8, 9)⟩ ⟨"columns", "center", 3, 4, "#00FF00"⟩ [] 1 0).pix 0 0
      = (7, 8, 9) := by
  have hamp : sample_at [] 1 0 = 0 := by norm_num [sample_at, pyInt]
  have hfig : drawnFigure ⟨"columns", "center", 3, 4, "#00FF00"⟩ 10 10 (0:ℚ) =
      Figure.rect 4 5 6 5 := by
    norm_num [drawnFigure, wave_y_mid, pyInt, abs_zero]
  exact C7_render_preserves ⟨10, 10, fun _ _ => (7, 8, 9)⟩ ⟨"columns", "center", 3, 4, "#00FF00"⟩
    [] 1 0 0 0 (by rw [show (⟨10, 10, fun _ _ => (7, 8, 9)⟩ : RGBFrame).width = 10 from rfl,
      show (⟨10, 10, fun _ _ => (7, 8, 9)⟩ : RGBFrame).height = 10 from rfl, hamp, hfig]; decide)

/-! ### C8: recognized shape values -/

/-- C8, counterexample. The claim says the recognized shape values are
exactly `"bar"` and `"wave"`. The code recognizes `"columns"`, not
`"bar"`: with identical inputs, shape `"columns"` colors the pixel
`(5, 5)` with the wave color while shape `"bar"` draws nothing at all and
leaves the canvas fully transparent. -/
theorem C8_counterexample :
    (make_frame 10 10 ⟨"columns", "center", 3, 4, "#00FF00"⟩ [1] 1 0).pix 5 5 =
      (0, 255, 0, 255) ∧
    (make_frame 10 10 ⟨"bar", "center", 3, 4, "#00FF00"⟩ [1] 1 0).pix 5 5 =
      (255, 255, 255, 0) ∧
    ((0, 255, 0, 255) : RGBA) ≠ (255, 255, 255, 0) := by
  have hamp : sample_at [1] 1 0 = 1 := by norm_num [sample_at, pyInt]
  have hfig : drawnFigure ⟨"columns", "center", 3, 4, "#00FF00"⟩ 10 10 (1:ℚ) =
      Figure.rect 4 3 6 7 := by
    norm_num [drawnFigure, wave_y_mid, pyInt, abs_one]
  have hbar : drawnFigure ⟨"bar", "center", 3, 4, "#00FF00"⟩ 10 10 (1:ℚ) = Figure.none := by
    have h1 : ("bar" : String) ≠ "columns" := by decide
    have h2 : ("bar" : String) ≠ "wave" := by decide
    simp [drawnFigure, h1, h2]
  refine ⟨?_, ?_, by decide⟩
  · simp only [make_frame, hamp, hfig]
    decide
  · simp only [make_frame, hamp, hbar]
    decide

/-- C8, amended: the recognized shape values are exactly `"columns"` and
`"wave"`; for every other shape value nothing is drawn — the overlay stays
fully transparent and the composited frame passes through unchanged — and
no error is ever produced. -/
theorem C8_amended (base : RGBFrame) (style : WaveStyle) (wf : List ℚ) (rate t : ℚ)
    (x y : ℤ) (h1 : style.wave_type ≠ "columns") (h2 : style.wave_type ≠ "wave") :
    (make_frame base.width base.height style wf rate t).pix x y = (255, 255, 255, 0) ∧
    (render base style wf rate t).pix x y = base.pix x y := by
  have hfig : drawnFigure style base.width base.height (sample_at wf rate t) = Figure.none := by
    simp [drawnFigure, h1, h2]
  have hclear : (make_frame base.width base.height style wf rate t).pix x y
      = (255, 255, 255, 0) := by
    simp [make_frame, hfig, inFigure]
  refine ⟨hclear, ?_⟩
  show alphaOver (base.pix x y) ((make_frame base.width base.height style wf rate t).pix x y)
    = base.pix x y
  rw [hclear, alphaOver_transparent]

/-- C8, witness for the amended theorem. -/
theorem C8_amended_witness :
    (make_frame 10 10 ⟨"bar", "center", 3, 4, "#FF0000"⟩ [1] 1 0).pix 5 5 =
      (255, 255, 255, 0) ∧
    (render ⟨10, 10, fun _ _ => (7, 8, 9)⟩ ⟨"bar", "center", 3, 4, "#FF0000"⟩ [1] 1 0).pix 5 5 =
      (7, 8, 9) :=
  C8_amended ⟨10, 10, fun _ _ => (7, 8, 9)⟩ ⟨"bar", "center", 3, 4, "#FF0000"⟩ [1] 1 0 5 5
    (by decide) (by decide)

/-! ### C9: color parsing -/

/-- C9, counterexample. The claim says the color configuration accepts a
comma-separated RGB triplet as well as a hex string. `_hex_to_rgb` parses
only `#RRGGBB`: the comma triplet `"0,255,0"` (green) is not parsed — it
falls back to the default red `(255, 0, 0, 255)` instead of yielding
green. -/
theorem C9_counterexample :
    hex_to_rgb "0,255,0" = (255, 0, 0, 255) ∧
    ((255, 0, 0, 255) : RGBA) ≠ (0, 255, 0, 255) := by decide

/-- C9, amended: the color configuration accepts only a hex string
(`#RRGGBB`); every other input — comma-separated triplets such as
`"0,255,0"` included, and malformed strings such as `"abc"` — is
substituted by the documented default color `(255, 0, 0, 255)` (red), and
parsing is total: it always returns an opaque RGBA color and never raises
or propagates an error. -/
theorem C9_amended :
    hex_to_rgb "abc" = (255, 0, 0, 255) ∧
    hex_to_rgb "#00FF00" = (0, 255, 0, 255) ∧
    hex_to_rgb "0,255,0" = (255, 0, 0, 255) ∧
    ∀ s : String, ∃ r g b : ℕ, hex_to_rgb s = (r, g, b, 255) := by
  refine ⟨by decide, by decide, by decide, ?_⟩
  intro s
  unfold hex_to_rgb
  repeat' split
  all_goals exact ⟨_, _, _, rfl⟩

/-! ### C10: unrecognized anchor positions -/

/-- C10: every `wave_position` outside `{"center", "top_third",
"bottom_third"}` silently falls back to the center anchor `h / 2`, and the
overlay is still drawn exactly as it would be for `"center"`: pixel for
pixel the same frame, with no error and no suppressed drawing. -/
theorem C10_unrecognized_position (pos : String) (w h : ℕ) (style : WaveStyle)
    (wf : List ℚ) (rate t : ℚ) (x y : ℤ)
    (h1 : pos ≠ "center") (h2 : pos ≠ "top_third") (h3 : pos ≠ "bottom_third") :
    wave_y_mid pos h = h / 2 ∧
    (make_frame w h { style with wave_position := pos } wf rate t).pix x y =
      (make_frame w h { style with wave_position := "center" } wf rate t).pix x y := by
  have hmid : wave_y_mid pos h = wave_y_mid "center" h := by
    simp [wave_y_mid, h1, h2, h3]
  have hfig : ∀ amp : ℚ, drawnFigure { style with wave_position := pos } w h amp =
      drawnFigure { style with wave_position := "center" } w h amp := by
    intro amp
    simp [drawnFigure, hmid]
  refine ⟨by rw [hmid]; simp [wave_y_mid], ?_⟩
  simp only [make_frame, hfig]

/-- C10, witness. -/
theorem C10_witness :
    wave_y_mid "middle" 10 = 10 / 2 ∧
    (make_frame 10 10 { (⟨"columns", "center", 3, 4, "#00FF00"⟩ : WaveStyle) with
        wave_position := "middle" } [1] 1 0).pix 5 5 =
      (make_frame 10 10 { (⟨"columns", "center", 3, 4, "#00FF00"⟩ : WaveStyle) with
        wave_position := "center" } [1] 1 0).pix 5 5 :=
  C10_unrecognized_position "middle" 10 10 ⟨"columns", "center", 3, 4, "#00FF00"⟩ [1] 1 0 5 5
    (by decide) (by decide) (by decide)

end VideoEffect
